import Mathlib

/-!
Verification development for Gwenview's thumbnail view pipeline
(`lib/thumbnailview/thumbnailview.cpp`), tag model
(`lib/semanticinfo/tagmodel.cpp`) and image meta-info model
(`lib/imagemetainfomodel.cpp`).

The C++ classes are shallowly embedded: Qt value types (`QSize`, `QRect`,
`QPixmap`) become Lean structures, the mutable view state becomes an
explicit state record, and each member function becomes a state-passing
Lean function mirroring the C++ control flow statement by statement.
-/

namespace Gwenview

/-! ### Qt value types -/

/-- Embedded `QSize`; the default-constructed size is `(-1, -1)` and is invalid. -/
structure QSize where
  w : Int
  h : Int
deriving DecidableEq, Repr

/-- Embedded `QSize()`: the invalid size. -/
def QSize.invalid : QSize := ⟨-1, -1⟩

/-- Embedded `QSize::isValid()`: both dimensions non-negative. -/
def QSize.isValid (s : QSize) : Bool := 0 ≤ s.w && 0 ≤ s.h

/-- The two transformation modes of `QPixmap::scaled`
(`Qt::FastTransformation` / `Qt::SmoothTransformation`). -/
inductive ScaleMode where
  | fast
  | smooth
deriving DecidableEq, Repr

/-- Pixel content of a pixmap, kept symbolic: either raw content with an
identity, or the result of scaling some other content. This lets theorems
distinguish a fast-scaled pixmap from a smooth-scaled one. -/
inductive PixData where
  | raw (id : Nat)
  | scaledData (src : PixData) (mode : ScaleMode) (w h : Nat)
deriving DecidableEq, Repr

/-- Embedded `QPixmap`: a width, a height and (symbolic) pixel content. -/
structure QPixmap where
  w : Nat
  h : Nat
  data : PixData
deriving DecidableEq, Repr

/-- Embedded `QPixmap()`: the null pixmap. -/
def QPixmap.nullPix : QPixmap := ⟨0, 0, .raw 0⟩

/-- Embedded `QPixmap::isNull()`. -/
def QPixmap.isNull (p : QPixmap) : Bool := p.w == 0 || p.h == 0

/-- Embedded `QPixmap::size()`. -/
def QPixmap.size (p : QPixmap) : QSize := ⟨(p.w : Int), (p.h : Int)⟩

/-- Size computation of `Qt::KeepAspectRatio` scaling: the largest size
with the source's aspect ratio that fits inside `tw × th`. -/
def scaledKeepAspect (w h tw th : Nat) : Nat × Nat :=
  let rw := th * w / h
  if rw ≤ tw then (rw, th) else (tw, tw * h / w)

/-- Embedded `QPixmap::scaled(tw, th, Qt::KeepAspectRatio, mode)`. -/
def QPixmap.scaled (p : QPixmap) (tw th : Nat) (mode : ScaleMode) : QPixmap :=
  if p.isNull then QPixmap.nullPix
  else
    let s := scaledKeepAspect p.w p.h tw th
    ⟨s.1, s.2, .scaledData p.data mode s.1 s.2⟩

/-- Embedded `QRect` with position and size; `x2 = x + w - 1`, `y2 = y + h - 1`
as in Qt. -/
structure QRect where
  x : Int
  y : Int
  w : Int
  h : Int
deriving DecidableEq, Repr

/-- Right edge, Qt convention. -/
def QRect.x2 (r : QRect) : Int := r.x + r.w - 1

/-- Bottom edge, Qt convention. -/
def QRect.y2 (r : QRect) : Int := r.y + r.h - 1

/-- Embedded `QRect::intersects`. -/
def QRect.intersects (a b : QRect) : Bool :=
  max a.x b.x ≤ min a.x2 b.x2 && max a.y b.y ≤ min a.y2 b.y2

/-- Embedded `QRect::adjust(dx1, dy1, dx2, dy2)`: moves the four edges. -/
def QRect.adjust (r : QRect) (dx1 dy1 dx2 dy2 : Int) : QRect :=
  ⟨r.x + dx1, r.y + dy1, r.w + dx2 - dx1, r.h + dy2 - dy1⟩

/-! ### KDE types used by the thumbnail view -/

/-- Embedded `MimeTypeUtils::Kind` values used by the thumbnail view. -/
inductive MimeKind where
  | KIND_UNKNOWN
  | KIND_RASTER_IMAGE
  | KIND_SVG_IMAGE
  | KIND_FILE
  | KIND_DIR
  | KIND_ARCHIVE
  | KIND_VIDEO
deriving DecidableEq, Repr

/-- Embedded `KFileItem`, reduced to the fields the thumbnail view reads: its URL
(`KUrl` modelled as `Nat`, `0` standing for the empty `KUrl()`), its
modification time, its mime kind (the value `MimeTypeUtils::fileItemKind`
returns for it) and the identity of its `pixmap()` icon. -/
structure KFileItem where
  isNull : Bool
  url : Nat
  mtime : Nat
  kind : MimeKind
  iconId : Nat
deriving DecidableEq, Repr

/-- Embedded `KFileItem()`: the null item. -/
def KFileItem.nullItem : KFileItem := ⟨true, 0, 0, .KIND_UNKNOWN, 0⟩

/-- Embedded `KFileItem::pixmap(size)`: the icon for the item at the given size. -/
def KFileItem.pixmap (item : KFileItem) (size : Nat) : QPixmap :=
  ⟨size, size, .raw item.iconId⟩

/-- Embedded `DesktopIcon(name, size)` (KDE), with the icon name encoded as a
numeric identity. -/
def DesktopIcon (id size : Nat) : QPixmap := ⟨size, size, .raw id⟩

/-- Identity of the `image-missing` desktop icon. -/
def imageMissingIconId : Nat := 1

/-- Modelled from the spec: `ThumbnailGroup` is declared in
`thumbnailloadjob.h`, which is not among these sources. Thumbnails are
cached in two pixel-size groups (the freedesktop `normal`/`large`
thumbnail sizes, 128 and 256 pixels); `fromPixelSize` picks the group for
a display size. -/
inductive ThumbnailGroup where
  | Normal
  | Large
deriving DecidableEq, Repr

/-- Embedded `ThumbnailGroup::pixelSize`. -/
def ThumbnailGroup.pixelSize : ThumbnailGroup → Nat
  | .Normal => 128
  | .Large => 256

/-- Embedded `ThumbnailGroup::fromPixelSize`. -/
def ThumbnailGroup.fromPixelSize (size : Nat) : ThumbnailGroup :=
  if size ≤ 128 then .Normal else .Large

/-- Embedded `AbstractDocumentInfoProvider`, as the three queries the view makes. -/
structure AbstractDocumentInfoProvider where
  isModified : Nat → Bool
  isBusy : Nat → Bool
  thumbnailForDocument : Nat → ThumbnailGroup → QPixmap × QSize

/-! ### The `Thumbnail` cache entry -/

/-- Embedded `struct Thumbnail` of `thumbnailview.cpp`, field for field.
`QPersistentModelIndex` is modelled as the (optional) model row. -/
structure Thumbnail where
  mIndex : Option Nat
  mModificationTime : Nat
  mGroupPix : QPixmap
  mAdjustedPix : QPixmap
  mFullSize : QSize
  mRealFullSize : QSize
  mRough : Bool
  mWaitingForThumbnail : Bool
deriving DecidableEq, Repr

/-- The `Thumbnail(index, mtime)` constructor: pixmaps null, sizes
invalid, `mRough` and `mWaitingForThumbnail` true. -/
def Thumbnail.init (index : Option Nat) (mtime : Nat) : Thumbnail :=
  ⟨index, mtime, QPixmap.nullPix, QPixmap.nullPix, QSize.invalid, QSize.invalid, true, true⟩

/-- Embedded `Thumbnail::initAsIcon`. -/
def Thumbnail.initAsIcon (t : Thumbnail) (pix : QPixmap) : Thumbnail :=
  let largeGroupSize := ThumbnailGroup.pixelSize .Large
  { t with mGroupPix := pix,
           mFullSize := ⟨(largeGroupSize : Int), (largeGroupSize : Int)⟩ }

/-- Embedded `Thumbnail::isGroupPixAdaptedForSize`. -/
def Thumbnail.isGroupPixAdaptedForSize (t : Thumbnail) (size : Nat) : Bool :=
  if t.mWaitingForThumbnail then false
  else if t.mGroupPix.isNull then false
  else
    let groupSize : Int := max (t.mGroupPix.w : Int) (t.mGroupPix.h : Int)
    if (size : Int) ≤ groupSize then true
    else groupSize == max t.mFullSize.w t.mFullSize.h

/-! ### The thumbnail view state -/

/-- Embedded `QHash<QUrl, Thumbnail>` as an association list. -/
abbrev ThumbnailForUrl := List (Nat × Thumbnail)

/-- Embedded `QHash::find`. -/
def hashFind (m : ThumbnailForUrl) (u : Nat) : Option Thumbnail :=
  match m with
  | [] => none
  | (k, v) :: rest => if k = u then some v else hashFind rest u

/-- Embedded `QHash::insert` / `operator[]=`: replaces the entry if the key is
present, appends it otherwise. -/
def hashInsert (m : ThumbnailForUrl) (u : Nat) (v : Thumbnail) : ThumbnailForUrl :=
  match m with
  | [] => [(u, v)]
  | (k, w) :: rest => if k = u then (k, v) :: rest else (k, w) :: hashInsert rest u v

/-- The mutable state of `ThumbnailView` / `ThumbnailViewPrivate` that the
functions under study read and write. The load job is modelled by its
pending item list (`none` when no job exists); the two timers by whether
they are armed; the busy animation time line by whether it is running. -/
structure ThumbnailViewState where
  mThumbnailSize : Nat
  mThumbnailForUrl : ThumbnailForUrl
  mSmoothThumbnailQueue : List Nat
  mSmoothTimerActive : Bool
  mThumbnailLoadJob : Option (List KFileItem)
  mBusyIndexSet : Finset Nat
  mBusyAnimationRunning : Bool
  mDocumentInfoProvider : Option AbstractDocumentInfoProvider
  mWaitingThumbnail : QPixmap

/-- A row of the attached model: its `KFileItem` and its `visualRect`. -/
structure ModelRow where
  item : KFileItem
  rect : QRect
deriving DecidableEq, Repr

/-- Embedded `fileItemForIndex`: the null item for the invalid index, otherwise the
item stored at the row. -/
def fileItemForIndex (rows : List ModelRow) (index : Option Nat) : KFileItem :=
  match index with
  | none => KFileItem.nullItem
  | some row =>
    match rows.get? row with
    | some r => r.item
    | none => KFileItem.nullItem

/-- Embedded `visualRect(index)` of the view. -/
def visualRect (rows : List ModelRow) (row : Nat) : QRect :=
  match rows.get? row with
  | some r => r.rect
  | none => ⟨0, 0, 0, 0⟩

/-- The geometry inputs of `generateThumbnailsForVisibleItems`. -/
structure ViewGeometry where
  viewIsVisible : Bool
  hasModel : Bool
  viewportRect : QRect
  wrapping : Bool
deriving DecidableEq, Repr

/-! ### ThumbnailView member functions -/

/-- The update `ThumbnailView::setThumbnail` performs on the hash (the
body after the failed-lookup early return). -/
def setThumbnailMap (m : ThumbnailForUrl) (item : KFileItem) (pixmap : QPixmap)
    (size : QSize) : ThumbnailForUrl :=
  match hashFind m item.url with
  | none => m
  | some thumbnail =>
    let largeGroupSize := ThumbnailGroup.pixelSize .Large
    let thumbnail' := { thumbnail with
      mGroupPix := pixmap
      mAdjustedPix := QPixmap.nullPix
      mFullSize := if size.isValid then size
                   else ⟨(largeGroupSize : Int), (largeGroupSize : Int)⟩
      mRealFullSize := size
      mWaitingForThumbnail := false }
    hashInsert m item.url thumbnail'

/-- Embedded `ThumbnailView::setThumbnail`: returns unchanged state when the item's
URL has no cache entry. -/
def ThumbnailView.setThumbnail (st : ThumbnailViewState) (item : KFileItem)
    (pixmap : QPixmap) (size : QSize) : ThumbnailViewState :=
  { st with mThumbnailForUrl := setThumbnailMap st.mThumbnailForUrl item pixmap size }

/-- Embedded `ThumbnailView::setBrokenThumbnail`. -/
def ThumbnailView.setBrokenThumbnail (st : ThumbnailViewState) (item : KFileItem) :
    ThumbnailViewState :=
  match hashFind st.mThumbnailForUrl item.url with
  | none => st
  | some thumbnail =>
    let thumbnail' :=
      if item.kind = .KIND_VIDEO then
        let group := ThumbnailGroup.fromPixelSize st.mThumbnailSize
        let pix := item.pixmap (ThumbnailGroup.pixelSize group)
        thumbnail.initAsIcon pix
      else if item.kind = .KIND_DIR then
        { thumbnail with mWaitingForThumbnail := false }
      else
        let t := thumbnail.initAsIcon (DesktopIcon imageMissingIconId 48)
        { t with mFullSize := t.mGroupPix.size }
    { st with mThumbnailForUrl := hashInsert st.mThumbnailForUrl item.url thumbnail' }

/-- Embedded `ThumbnailViewPrivate::roughAdjustThumbnail`. -/
def roughAdjustThumbnail (mThumbnailSize : Nat) (t : Thumbnail) : Thumbnail :=
  let groupSize : Int := max (t.mGroupPix.w : Int) (t.mGroupPix.h : Int)
  let fullSize : Int := max t.mFullSize.w t.mFullSize.h
  if fullSize = groupSize ∧ groupSize ≤ (mThumbnailSize : Int) then
    { t with mAdjustedPix := t.mGroupPix, mRough := false }
  else
    { t with mAdjustedPix := t.mGroupPix.scaled mThumbnailSize mThumbnailSize .fast,
             mRough := true }

/-- Embedded `ThumbnailView::thumbnailForIndex`. Returns the displayed pixmap, the
value written to `*fullSize`, and the new state. -/
def ThumbnailView.thumbnailForIndex (rows : List ModelRow) (st : ThumbnailViewState)
    (index : Option Nat) : QPixmap × QSize × ThumbnailViewState :=
  let item := fileItemForIndex rows index
  if item.isNull then
    (QPixmap.nullPix, QSize.invalid, st)
  else
    let url := item.url
    let found :=
      match hashFind st.mThumbnailForUrl url with
      | some t => (t, st)
      | none =>
        let t := Thumbnail.init index item.mtime
        (t, { st with mThumbnailForUrl := hashInsert st.mThumbnailForUrl url t })
    let t₀ := found.1
    let st₀ := found.2
    let t₁ :=
      if item.kind = .KIND_ARCHIVE ∨ item.kind = .KIND_DIR then
        let groupSize := ThumbnailGroup.pixelSize (ThumbnailGroup.fromPixelSize st.mThumbnailSize)
        if t₀.mGroupPix.isNull || decide (t₀.mGroupPix.w < groupSize) then
          let t := t₀.initAsIcon (item.pixmap groupSize)
          if item.kind = .KIND_ARCHIVE then { t with mWaitingForThumbnail := false }
          else { t with mWaitingForThumbnail := true }
        else t₀
      else t₀
    let st₁ := { st₀ with mThumbnailForUrl := hashInsert st₀.mThumbnailForUrl url t₁ }
    if t₁.mGroupPix.isNull then
      (st.mWaitingThumbnail, QSize.invalid, st₁)
    else
      let t₂ := if t₁.mAdjustedPix.isNull then roughAdjustThumbnail st.mThumbnailSize t₁ else t₁
      let queueAndTimer :=
        if t₂.mRough && !(st.mSmoothThumbnailQueue.contains url) then
          (st.mSmoothThumbnailQueue ++ [url], true)
        else (st.mSmoothThumbnailQueue, st.mSmoothTimerActive)
      let st₂ := { st₁ with
        mThumbnailForUrl := hashInsert st₁.mThumbnailForUrl url t₂,
        mSmoothThumbnailQueue := queueAndTimer.1,
        mSmoothTimerActive := queueAndTimer.2 }
      (t₂.mAdjustedPix, t₂.mRealFullSize, st₂)

/-- Embedded `ThumbnailView::smoothNextThumbnail`. -/
def ThumbnailView.smoothNextThumbnail (st : ThumbnailViewState) : ThumbnailViewState :=
  match st.mSmoothThumbnailQueue with
  | [] => st
  | url :: rest =>
    if st.mThumbnailLoadJob.isSome then
      { st with mSmoothTimerActive := true }
    else
      match hashFind st.mThumbnailForUrl url with
      | none => { st with mSmoothThumbnailQueue := rest }
      | some thumbnail =>
        let thumbnail' := { thumbnail with
          mAdjustedPix := thumbnail.mGroupPix.scaled st.mThumbnailSize st.mThumbnailSize .smooth,
          mRough := false }
        { st with
          mThumbnailForUrl := hashInsert st.mThumbnailForUrl url thumbnail',
          mSmoothThumbnailQueue := rest,
          mSmoothTimerActive := if rest.isEmpty then st.mSmoothTimerActive else true }

/-- Embedded `ThumbnailViewPrivate::generateThumbnailsForItems`: creates the load
job when none exists, appends the items to its pending list otherwise. -/
def generateThumbnailsForItems (st : ThumbnailViewState) (list : List KFileItem) :
    ThumbnailViewState :=
  match st.mThumbnailLoadJob with
  | none => { st with mThumbnailLoadJob := some list }
  | some pending => { st with mThumbnailLoadJob := some (pending ++ list) }

/-- Whether `d->mDocumentInfoProvider && d->mDocumentInfoProvider->isModified(url)`. -/
def modifiedB (provider : Option AbstractDocumentInfoProvider) (url : Nat) : Bool :=
  match provider with
  | some p => p.isModified url
  | none => false

/-- The update `ThumbnailViewPrivate::updateThumbnailForModifiedDocument`
performs on the hash: insert a fresh `Thumbnail` for the url, then apply
`setThumbnail` with the pixmap the document info provider supplies. -/
def updateThumbnailForModifiedDocumentMap (rows : List ModelRow)
    (provider : Option AbstractDocumentInfoProvider) (mThumbnailSize : Nat) (now : Nat)
    (m : ThumbnailForUrl) (index : Option Nat) : ThumbnailForUrl :=
  match provider with
  | none => m
  | some p =>
    let item := fileItemForIndex rows index
    let url := item.url
    let group := ThumbnailGroup.fromPixelSize mThumbnailSize
    let pixAndSize := p.thumbnailForDocument url group
    let m' := hashInsert m url (Thumbnail.init index now)
    setThumbnailMap m' item pixAndSize.1 pixAndSize.2

/-- Embedded `ThumbnailViewPrivate::updateThumbnailForModifiedDocument` on the
state. -/
def updateThumbnailForModifiedDocument (rows : List ModelRow) (now : Nat)
    (st : ThumbnailViewState) (index : Option Nat) : ThumbnailViewState :=
  { st with mThumbnailForUrl :=
      (updateThumbnailForModifiedDocumentMap rows st.mDocumentInfoProvider
        st.mThumbnailSize now st.mThumbnailForUrl index) }

/-- The extended visible rectangle of
`ThumbnailView::generateThumbnailsForVisibleItems`: two more rows of
thumbnails below when wrapping, half a viewport to the right otherwise. -/
def extendedVisibleRect (g : ViewGeometry) (mThumbnailSize : Nat) : QRect :=
  if g.wrapping then g.viewportRect.adjust 0 0 0 ((mThumbnailSize : Int) * 2)
  else g.viewportRect.adjust 0 0 (g.viewportRect.w / 2) 0

/-- The row loop of `ThumbnailView::generateThumbnailsForVisibleItems`:
walks the model rows, skipping invisible rows, archives, modified
documents (updating those immediately) and rows whose cached group pixmap
is already adapted; collects the remaining items, inserting absent cache
entries. -/
def gtfviLoop (rows : List ModelRow) (provider : Option AbstractDocumentInfoProvider)
    (mThumbnailSize : Nat) (now : Nat) (visibleRect : QRect) :
    List Nat → ThumbnailForUrl → List KFileItem → List KFileItem × ThumbnailForUrl
  | [], m, list => (list, m)
  | i :: is, m, list =>
    let item := fileItemForIndex rows (some i)
    let url := item.url
    if !(visibleRect.intersects (visualRect rows i)) then
      gtfviLoop rows provider mThumbnailSize now visibleRect is m list
    else if item.kind = .KIND_ARCHIVE then
      gtfviLoop rows provider mThumbnailSize now visibleRect is m list
    else if modifiedB provider url then
      gtfviLoop rows provider mThumbnailSize now visibleRect is
        (updateThumbnailForModifiedDocumentMap rows provider mThumbnailSize now m (some i)) list
    else
      match hashFind m url with
      | some t =>
        if t.isGroupPixAdaptedForSize mThumbnailSize then
          gtfviLoop rows provider mThumbnailSize now visibleRect is m list
        else
          gtfviLoop rows provider mThumbnailSize now visibleRect is m (list ++ [item])
      | none =>
        gtfviLoop rows provider mThumbnailSize now visibleRect is
          (hashInsert m url (Thumbnail.init (some i) item.mtime)) (list ++ [item])

/-- The loop of `generateThumbnailsForVisibleItems` run over all model
rows from the current state. -/
def gtfviRun (g : ViewGeometry) (rows : List ModelRow) (now : Nat)
    (st : ThumbnailViewState) : List KFileItem × ThumbnailForUrl :=
  gtfviLoop rows st.mDocumentInfoProvider st.mThumbnailSize now
    (extendedVisibleRect g st.mThumbnailSize)
    (List.range rows.length) st.mThumbnailForUrl []

/-- Embedded `ThumbnailView::generateThumbnailsForVisibleItems`. -/
def ThumbnailView.generateThumbnailsForVisibleItems (g : ViewGeometry)
    (rows : List ModelRow) (now : Nat) (st : ThumbnailViewState) : ThumbnailViewState :=
  if !g.viewIsVisible || !g.hasModel then st
  else
    let res := gtfviRun g rows now st
    let st' := { st with mThumbnailForUrl := res.2 }
    if res.1.isEmpty then st' else generateThumbnailsForItems st' res.1

/-- Embedded `ThumbnailView::updateThumbnail`. -/
def ThumbnailView.updateThumbnail (rows : List ModelRow) (now : Nat)
    (st : ThumbnailViewState) (index : Option Nat) : ThumbnailViewState :=
  let item := fileItemForIndex rows index
  let url := item.url
  if modifiedB st.mDocumentInfoProvider url then
    updateThumbnailForModifiedDocument rows now st index
  else
    generateThumbnailsForItems st [item]

/-- Embedded `ThumbnailView::updateThumbnailBusyState`. `QSet::remove` returns
whether the element was present; erasing an absent element is the
identity, so the `!busy`-and-absent case leaves the state unchanged. -/
def ThumbnailView.updateThumbnailBusyState (st : ThumbnailViewState) (index : Nat)
    (busy : Bool) : ThumbnailViewState :=
  if busy ∧ index ∉ st.mBusyIndexSet then
    let st' := { st with mBusyIndexSet := insert index st.mBusyIndexSet }
    if st.mBusyAnimationRunning then st'
    else { st' with mBusyAnimationRunning := true }
  else if ¬busy ∧ index ∈ st.mBusyIndexSet then
    let st' := { st with mBusyIndexSet := st.mBusyIndexSet.erase index }
    if st'.mBusyIndexSet = ∅ then { st' with mBusyAnimationRunning := false }
    else st'
  else st

/-! ### TagModel (`lib/semanticinfo/tagmodel.cpp`) -/

/-- Embedded `SemanticInfoTag`: a tag identifier. -/
abbrev SemanticInfoTag := Nat

/-- A tag label (`QString`), as its list of UTF-16 code units. -/
abbrev TagLabel := List Nat

/-- Embedded `QString::compare`: code-unit-wise comparison, the shorter string
comparing less when one is a strict head of the other; result is the
sign (`-1`, `0`, `1`) of the C++ return value. -/
def qstringCompare : TagLabel → TagLabel → Int
  | [], [] => 0
  | [], _ :: _ => -1
  | _ :: _, [] => 1
  | a :: as, b :: bs => if a < b then -1 else if b < a then 1 else qstringCompare as bs

/-- A row of the tag model: the tag (its `TagRole` data) and its label
(its display text). -/
structure TagRow where
  tag : SemanticInfoTag
  label : TagLabel
deriving DecidableEq, Repr

/-- The row insertion of `TagModel::slotTagAdded`: walk the rows, stop at
the first whose label compares greater than the new label, insert the new
row there. -/
def slotTagAddedInsert (tag : SemanticInfoTag) (label : TagLabel) :
    List TagRow → List TagRow
  | [] => [⟨tag, label⟩]
  | r :: rs =>
    if 0 < qstringCompare r.label label then ⟨tag, label⟩ :: r :: rs
    else r :: slotTagAddedInsert tag label rs

/-- Embedded `TagModel::slotTagAdded` on the model's row list. -/
def TagModel.slotTagAdded (tag : SemanticInfoTag) (label : TagLabel)
    (rows : List TagRow) : List TagRow :=
  slotTagAddedInsert tag label rows

/-- Embedded `QStandardItemModel::sort(0, Qt::AscendingOrder)` on tag rows: a
stable sort by label, realised as insertion sort with the same
before-first-greater insertion the model uses. -/
def sortTagRows (rows : List TagRow) : List TagRow :=
  rows.foldr (fun r acc => slotTagAddedInsert r.tag r.label acc) []

/-- Embedded `TagModel::refresh`: clear the model, append a row per backend tag
(the backend's tag set with each tag's label, in backend iteration
order), then sort by label. -/
def TagModel.refresh (tags : List (SemanticInfoTag × TagLabel)) : List TagRow :=
  sortTagRows (tags.map (fun p => ⟨p.1, p.2⟩))

/-- Row labels are in ascending label order. -/
def TagsSorted (rows : List TagRow) : Prop :=
  rows.Pairwise (fun a b => qstringCompare a.label b.label ≤ 0)

/-! ### ImageMetaInfoModel (`lib/imagemetainfomodel.cpp`) -/

/-- Embedded `QModelIndex`, as used by `ImageMetaInfoModel`: either invalid, or a
row, column and internal id (the id is `NoGroup = -1` for group rows and
the parent group's row for entry rows). -/
inductive MIdx where
  | invalid
  | valid (row : Nat) (col : Nat) (internalId : Int)
deriving DecidableEq, Repr

/-- The `NoGroup` internal id. -/
def NoGroup : Int := -1

/-- An entry of a `MetaInfoGroup`: key, label and value strings. -/
structure MetaInfoEntry where
  key : List Nat
  label : List Nat
  value : List Nat
deriving DecidableEq, Repr

/-- Embedded `MetaInfoGroup`: an entry list. -/
structure MetaInfoGroup where
  entries : List MetaInfoEntry
deriving DecidableEq, Repr

/-- Embedded `MetaInfoGroup::size`. -/
def MetaInfoGroup.size (g : MetaInfoGroup) : Nat := g.entries.length

/-- Embedded `ImageMetaInfoModel`'s data: its group vector (three groups in the
constructor; kept general here). -/
structure ImageMetaInfoModel where
  mMetaInfoGroupVector : List MetaInfoGroup
deriving DecidableEq, Repr

/-- Embedded `d->mMetaInfoGroupVector[i]`, total with an empty default. -/
def ImageMetaInfoModel.groupAt (model : ImageMetaInfoModel) (i : Nat) : MetaInfoGroup :=
  model.mMetaInfoGroupVector.getD i ⟨[]⟩

/-- Embedded `ImageMetaInfoModel::index`. -/
def ImageMetaInfoModel.index (model : ImageMetaInfoModel) (row col : Nat)
    (parent : MIdx) : MIdx :=
  match parent with
  | .invalid =>
    if 0 < col then .invalid
    else if model.mMetaInfoGroupVector.length ≤ row then .invalid
    else .valid row col NoGroup
  | .valid prow _ _ =>
    if 1 < col then .invalid
    else
      let group := prow
      if (model.groupAt group).size ≤ row then .invalid
      else .valid row col (group : Int)

/-- Embedded `ImageMetaInfoModel::parent`. -/
def ImageMetaInfoModel.parent (model : ImageMetaInfoModel) (index : MIdx) : MIdx :=
  match index with
  | .invalid => .invalid
  | .valid _ _ internalId =>
    if internalId = NoGroup then .invalid
    else .valid internalId.toNat 0 NoGroup

/-- Embedded `ImageMetaInfoModel::rowCount`. -/
def ImageMetaInfoModel.rowCount (model : ImageMetaInfoModel) (parent : MIdx) : Nat :=
  match parent with
  | .invalid => model.mMetaInfoGroupVector.length
  | .valid prow _ internalId =>
    if internalId = NoGroup then (model.groupAt prow).size
    else 0

/-! ### Derived predicates -/

/-- Whether the cached entry for `url` already holds a group pixmap
adapted to `size` (absent entries count as not adapted). -/
def adaptedB (m : ThumbnailForUrl) (size : Nat) (url : Nat) : Bool :=
  match hashFind m url with
  | some t => t.isGroupPixAdaptedForSize size
  | none => false

/-- Stated from the claim, for comparison with `gtfviLoop`: a model row is
submitted iff it intersects the extended visible rectangle, is not an
archive, is not a modified document, and its cache entry does not already
hold a group pixmap adapted to the current thumbnail size. -/
def submittedRowSpec (rows : List ModelRow)
    (provider : Option AbstractDocumentInfoProvider) (mThumbnailSize : Nat)
    (visibleRect : QRect) (m : ThumbnailForUrl) (i : Nat) : Bool :=
  let item := fileItemForIndex rows (some i)
  visibleRect.intersects (visualRect rows i) &&
  !(item.kind == .KIND_ARCHIVE) &&
  !(modifiedB provider item.url) &&
  !(adaptedB m mThumbnailSize item.url)

/-! ### Concrete inputs used by witnesses and counterexamples -/

/-- A cache entry whose group pixmap is loaded (256 px, full image
512 px) but whose adjusted pixmap is not yet computed. -/
def ex1Thumb : Thumbnail :=
  ⟨some 0, 0, ⟨256, 256, .raw 5⟩, QPixmap.nullPix, ⟨512, 512⟩, ⟨512, 512⟩, true, false⟩

/-- One raster-image row with URL 1. -/
def ex1Rows : List ModelRow := [⟨⟨false, 1, 0, .KIND_RASTER_IMAGE, 9⟩, ⟨0, 0, 10, 10⟩⟩]

/-- View state holding `ex1Thumb` for URL 1, empty queue, no job. -/
def ex1State : ThumbnailViewState :=
  ⟨128, [(1, ex1Thumb)], [], false, none, ∅, false, none, QPixmap.nullPix⟩

/-- View state with URL 1 queued for smoothing and no load job. -/
def ex1SmoothState : ThumbnailViewState :=
  ⟨128, [(1, ex1Thumb)], [1], false, none, ∅, false, none, QPixmap.nullPix⟩

/-- View state with an empty smoothing queue, a pending load job and the
smoothing timer not armed. -/
def exSmoothState : ThumbnailViewState :=
  ⟨128, [], [], false, some [], ∅, false, none, QPixmap.nullPix⟩

/-- View state with a non-empty smoothing queue and a pending load job. -/
def exJobState : ThumbnailViewState :=
  ⟨128, [(4, ex1Thumb)], [4], false, some [], ∅, false, none, QPixmap.nullPix⟩

/-- View state whose cache has an entry for URL 3 only. -/
def exState9 : ThumbnailViewState :=
  ⟨128, [(3, Thumbnail.init (some 0) 5)], [], false, none, ∅, false, none, QPixmap.nullPix⟩

/-- An item whose URL (7) has no cache entry in `exState9`. -/
def exItem9 : KFileItem := ⟨false, 7, 0, .KIND_RASTER_IMAGE, 2⟩

/-- View state with busy index 2 and the busy animation running. -/
def exState4 : ThumbnailViewState :=
  ⟨128, [], [], false, none, {2}, true, none, QPixmap.nullPix⟩

/-- A meta-info entry with placeholder strings. -/
def exEntry : MetaInfoEntry := ⟨[0], [0], [0]⟩

/-- A meta-info model with two groups of sizes 1 and 2. -/
def exMetaModel : ImageMetaInfoModel := ⟨[⟨[exEntry]⟩, ⟨[exEntry, exEntry]⟩]⟩

/-- A visible wrapping view over a 100×100 viewport. -/
def ex3Geometry : ViewGeometry := ⟨true, true, ⟨0, 0, 100, 100⟩, true⟩

/-- Two rows: a raster image (URL 1) and an archive (URL 2), both inside
the viewport. -/
def ex3Rows : List ModelRow :=
  [⟨⟨false, 1, 0, .KIND_RASTER_IMAGE, 9⟩, ⟨0, 0, 10, 10⟩⟩,
   ⟨⟨false, 2, 0, .KIND_ARCHIVE, 9⟩, ⟨0, 10, 10, 10⟩⟩]

/-- View state with an empty cache and no provider. -/
def ex3State : ThumbnailViewState :=
  ⟨128, [], [], false, none, ∅, false, none, QPixmap.nullPix⟩

/-- A document info provider reporting exactly URL 5 as modified. -/
def ex5Provider : AbstractDocumentInfoProvider :=
  ⟨fun u => u == 5, fun _ => false, fun u _ => (⟨10, 10, .raw u⟩, ⟨20, 20⟩)⟩

/-- One raster-image row with the modified URL 5. -/
def ex5Rows : List ModelRow := [⟨⟨false, 5, 0, .KIND_RASTER_IMAGE, 9⟩, ⟨0, 0, 10, 10⟩⟩]

/-- View state with an empty cache and `ex5Provider` attached. -/
def ex5State : ThumbnailViewState :=
  ⟨128, [], [], false, none, ∅, false, some ex5Provider, QPixmap.nullPix⟩

/-! ### Helper lemmas -/

/-- Lookup after insertion: the inserted value at the inserted key, the
old lookup elsewhere. -/
theorem hashFind_hashInsert (m : ThumbnailForUrl) (k u : Nat) (v : Thumbnail) :
    hashFind (hashInsert m k v) u = if u = k then some v else hashFind m u := by
  induction m with
  | nil =>
    by_cases h : u = k
    · subst h; simp [hashInsert, hashFind]
    · simp [hashInsert, hashFind, h, Ne.symm h]
  | cons p rest ih =>
    obtain ⟨a, w⟩ := p
    by_cases hak : a = k
    · subst hak
      by_cases hau : a = u
      · subst hau; simp [hashInsert, hashFind]
      · simp [hashInsert, hashFind, hau, Ne.symm hau]
    · by_cases hau : a = u
      · subst hau
        simp [hashInsert, hashFind, hak]
      · simp [hashInsert, hashFind, hak, hau, ih]

/-- Insertion preserves presence of any key. -/
theorem isSome_hashFind_hashInsert (m : ThumbnailForUrl) (k u : Nat) (v : Thumbnail)
    (h : (hashFind m u).isSome = true) :
    (hashFind (hashInsert m k v) u).isSome = true := by
  rw [hashFind_hashInsert]
  by_cases huk : u = k <;> simp [huk, h]

/-- A freshly constructed cache entry is never adapted (it is still
waiting for its thumbnail). -/
theorem init_not_adapted (index : Option Nat) (mtime size : Nat) :
    (Thumbnail.init index mtime).isGroupPixAdaptedForSize size = false := by
  simp [Thumbnail.init, Thumbnail.isGroupPixAdaptedForSize]

/-- The modified-document update leaves every other URL's entry alone. -/
theorem updateModifiedMap_find_other (rows : List ModelRow)
    (provider : Option AbstractDocumentInfoProvider) (size now : Nat)
    (m : ThumbnailForUrl) (index : Option Nat) (u : Nat)
    (hu : u ≠ (fileItemForIndex rows index).url) :
    hashFind (updateThumbnailForModifiedDocumentMap rows provider size now m index) u =
      hashFind m u := by
  cases provider with
  | none => rfl
  | some p =>
    have hfi : hashFind (hashInsert m (fileItemForIndex rows index).url
        (Thumbnail.init index now)) (fileItemForIndex rows index).url =
        some (Thumbnail.init index now) := by
      rw [hashFind_hashInsert]; simp
    simp only [updateThumbnailForModifiedDocumentMap, setThumbnailMap, hfi]
    rw [hashFind_hashInsert, hashFind_hashInsert]
    simp [hu]

/-- The modified-document update stores the provider-supplied thumbnail
at the resolved URL: a fresh entry overwritten by `setThumbnail` with the
pixmap and size from `thumbnailForDocument`. -/
theorem updateModifiedMap_find_self (rows : List ModelRow)
    (p : AbstractDocumentInfoProvider) (size now : Nat)
    (m : ThumbnailForUrl) (index : Option Nat) :
    hashFind (updateThumbnailForModifiedDocumentMap rows (some p) size now m index)
      (fileItemForIndex rows index).url =
      some ⟨index, now,
        (p.thumbnailForDocument (fileItemForIndex rows index).url
          (ThumbnailGroup.fromPixelSize size)).1,
        QPixmap.nullPix,
        (if (p.thumbnailForDocument (fileItemForIndex rows index).url
              (ThumbnailGroup.fromPixelSize size)).2.isValid = true
         then (p.thumbnailForDocument (fileItemForIndex rows index).url
              (ThumbnailGroup.fromPixelSize size)).2
         else ⟨(ThumbnailGroup.pixelSize ThumbnailGroup.Large : Int),
               (ThumbnailGroup.pixelSize ThumbnailGroup.Large : Int)⟩),
        (p.thumbnailForDocument (fileItemForIndex rows index).url
          (ThumbnailGroup.fromPixelSize size)).2,
        true, false⟩ := by
  have hfi : hashFind (hashInsert m (fileItemForIndex rows index).url
      (Thumbnail.init index now)) (fileItemForIndex rows index).url =
      some (Thumbnail.init index now) := by
    rw [hashFind_hashInsert]; simp
  simp only [updateThumbnailForModifiedDocumentMap, setThumbnailMap, hfi]
  rw [hashFind_hashInsert]
  simp [Thumbnail.init]

/-- The modified-document update preserves presence of any key. -/
theorem isSome_updateModifiedMap (rows : List ModelRow)
    (provider : Option AbstractDocumentInfoProvider) (size now : Nat)
    (m : ThumbnailForUrl) (index : Option Nat) (u : Nat)
    (h : (hashFind m u).isSome = true) :
    (hashFind (updateThumbnailForModifiedDocumentMap rows provider size now m index)
      u).isSome = true := by
  by_cases hu : u = (fileItemForIndex rows index).url
  · subst hu
    cases provider with
    | none => exact h
    | some p => rw [updateModifiedMap_find_self]; rfl
  · rw [updateModifiedMap_find_other rows provider size now m index u hu]
    exact h

/-- Adaptedness after insertion. -/
theorem adaptedB_hashInsert (m : ThumbnailForUrl) (k u : Nat) (v : Thumbnail)
    (size : Nat) :
    adaptedB (hashInsert m k v) size u =
      if u = k then v.isGroupPixAdaptedForSize size else adaptedB m size u := by
  simp only [adaptedB, hashFind_hashInsert]
  by_cases huk : u = k <;> simp [huk]

/-- Adaptedness of other URLs is unchanged by the modified-document
update. -/
theorem adaptedB_updateModifiedMap_other (rows : List ModelRow)
    (provider : Option AbstractDocumentInfoProvider) (size' now : Nat)
    (m : ThumbnailForUrl) (index : Option Nat) (u size : Nat)
    (hu : u ≠ (fileItemForIndex rows index).url) :
    adaptedB (updateThumbnailForModifiedDocumentMap rows provider size' now m index)
      size u = adaptedB m size u := by
  simp only [adaptedB, updateModifiedMap_find_other rows provider size' now m index u hu]

/-- The generation loop leaves the entry of a URL resolved by none of the
processed rows unchanged. -/
theorem gtfviLoop_find_untouched (rows : List ModelRow)
    (provider : Option AbstractDocumentInfoProvider) (size now : Nat) (vr : QRect)
    (u : Nat) :
    ∀ (work : List Nat) (m : ThumbnailForUrl) (list : List KFileItem),
    (∀ j ∈ work, (fileItemForIndex rows (some j)).url ≠ u) →
    hashFind (gtfviLoop rows provider size now vr work m list).2 u = hashFind m u := by
  intro work
  induction work with
  | nil => intro m list _; rfl
  | cons j js ih =>
    intro m list h
    have hju : (fileItemForIndex rows (some j)).url ≠ u := h j (List.mem_cons_self j js)
    have hjs : ∀ j' ∈ js, (fileItemForIndex rows (some j')).url ≠ u :=
      fun j' hj' => h j' (List.mem_cons_of_mem j hj')
    simp only [gtfviLoop]
    split_ifs with h1 h2 h3
    · exact ih m list hjs
    · exact ih m list hjs
    · rw [ih _ list hjs]
      exact updateModifiedMap_find_other rows provider size now m (some j) u (Ne.symm hju)
    · cases hfm : hashFind m (fileItemForIndex rows (some j)).url with
      | some t =>
        dsimp only
        by_cases had : t.isGroupPixAdaptedForSize size = true
        · rw [if_pos had]
          exact ih m list hjs
        · rw [if_neg had]
          exact ih m (list ++ [fileItemForIndex rows (some j)]) hjs
      | none =>
        dsimp only
        rw [ih _ _ hjs, hashFind_hashInsert]
        simp [Ne.symm hju]

/-- Every item the generation loop collects has an entry in the resulting
cache. -/
theorem gtfviLoop_submitted_in_map (rows : List ModelRow)
    (provider : Option AbstractDocumentInfoProvider) (size now : Nat) (vr : QRect) :
    ∀ (work : List Nat) (m : ThumbnailForUrl) (list : List KFileItem),
    (∀ it ∈ list, (hashFind m it.url).isSome = true) →
    ∀ it ∈ (gtfviLoop rows provider size now vr work m list).1,
      (hashFind (gtfviLoop rows provider size now vr work m list).2 it.url).isSome = true := by
  intro work
  induction work with
  | nil => intro m list h it hit; exact h it hit
  | cons j js ih =>
    intro m list h
    simp only [gtfviLoop]
    split_ifs with h1 h2 h3
    · exact ih m list h
    · exact ih m list h
    · refine ih _ list (fun it hit => ?_)
      exact isSome_updateModifiedMap rows provider size now m (some j) it.url (h it hit)
    · cases hfm : hashFind m (fileItemForIndex rows (some j)).url with
      | some t =>
        dsimp only
        by_cases had : t.isGroupPixAdaptedForSize size = true
        · rw [if_pos had]
          exact ih m list h
        · rw [if_neg had]
          refine ih m (list ++ [fileItemForIndex rows (some j)]) (fun it hit => ?_)
          rcases List.mem_append.mp hit with hit' | hit'
          · exact h it hit'
          · rw [List.mem_singleton.mp hit', hfm]
            rfl
      | none =>
        dsimp only
        refine ih _ (list ++ [fileItemForIndex rows (some j)]) (fun it hit => ?_)
        rcases List.mem_append.mp hit with hit' | hit'
        · exact isSome_hashFind_hashInsert m _ it.url _ (h it hit')
        · rw [List.mem_singleton.mp hit', hashFind_hashInsert]
          simp

/-- The generation loop never collects an item whose document the
provider reports modified. -/
theorem gtfviLoop_no_modified (rows : List ModelRow)
    (provider : Option AbstractDocumentInfoProvider) (size now : Nat) (vr : QRect) :
    ∀ (work : List Nat) (m : ThumbnailForUrl) (list : List KFileItem),
    (∀ it ∈ list, modifiedB provider it.url = false) →
    ∀ it ∈ (gtfviLoop rows provider size now vr work m list).1,
      modifiedB provider it.url = false := by
  intro work
  induction work with
  | nil => intro m list h it hit; exact h it hit
  | cons j js ih =>
    intro m list h
    simp only [gtfviLoop]
    split_ifs with h1 h2 h3
    · exact ih m list h
    · exact ih m list h
    · exact ih _ list h
    · have hnew : ∀ it ∈ list ++ [fileItemForIndex rows (some j)],
          modifiedB provider it.url = false := by
        intro it hit
        rcases List.mem_append.mp hit with hit' | hit'
        · exact h it hit'
        · rw [List.mem_singleton.mp hit']
          exact Bool.not_eq_true _ ▸ (by simpa using h3)
      cases hfm : hashFind m (fileItemForIndex rows (some j)).url with
      | some t =>
        dsimp only
        by_cases had : t.isGroupPixAdaptedForSize size = true
        · rw [if_pos had]
          exact ih m list h
        · rw [if_neg had]
          exact ih m _ hnew
      | none =>
        dsimp only
        exact ih _ _ hnew

/-- The generation loop collects exactly the rows selected by
`submittedRowSpec` (relative to the starting cache), appended to the
accumulator, as long as the running cache agrees with the starting cache
on adaptedness of every non-modified URL. -/
theorem gtfviLoop_list_characterization (rows : List ModelRow)
    (provider : Option AbstractDocumentInfoProvider) (size now : Nat) (vr : QRect)
    (m₀ : ThumbnailForUrl) :
    ∀ (work : List Nat) (m : ThumbnailForUrl) (list : List KFileItem),
    (∀ u, modifiedB provider u = false → adaptedB m size u = adaptedB m₀ size u) →
    (gtfviLoop rows provider size now vr work m list).1 =
      list ++ (work.filter (submittedRowSpec rows provider size vr m₀)).map
        (fun i => fileItemForIndex rows (some i)) := by
  intro work
  induction work with
  | nil => intro m list _; simp [gtfviLoop]
  | cons j js ih =>
    intro m list hinv
    simp only [gtfviLoop, List.filter_cons]
    by_cases h1 : (!vr.intersects (visualRect rows j)) = true
    · have hv : vr.intersects (visualRect rows j) = false := by simpa using h1
      have hspec : submittedRowSpec rows provider size vr m₀ j = false := by
        simp [submittedRowSpec, hv]
      rw [if_pos h1, hspec]
      simpa using ih m list hinv
    · have hv : vr.intersects (visualRect rows j) = true := by simpa using h1
      rw [if_neg h1]
      by_cases h2 : (fileItemForIndex rows (some j)).kind = MimeKind.KIND_ARCHIVE
      · have hspec : submittedRowSpec rows provider size vr m₀ j = false := by
          simp [submittedRowSpec, h2]
        rw [if_pos h2, hspec]
        simpa using ih m list hinv
      · rw [if_neg h2]
        by_cases h3 : modifiedB provider (fileItemForIndex rows (some j)).url = true
        · have hspec : submittedRowSpec rows provider size vr m₀ j = false := by
            simp [submittedRowSpec, h3]
          have hinv' : ∀ u, modifiedB provider u = false →
              adaptedB (updateThumbnailForModifiedDocumentMap rows provider size now m
                (some j)) size u = adaptedB m₀ size u := by
            intro u hu
            have hne : u ≠ (fileItemForIndex rows (some j)).url := by
              intro he
              rw [he, h3] at hu
              simp at hu
            rw [adaptedB_updateModifiedMap_other rows provider size now m (some j) u size hne]
            exact hinv u hu
          rw [if_pos h3, hspec]
          simpa using ih _ list hinv'
        · rw [if_neg h3]
          have h3' : modifiedB provider (fileItemForIndex rows (some j)).url = false := by
            simpa using h3
          cases hfm : hashFind m (fileItemForIndex rows (some j)).url with
          | some t =>
            dsimp only
            have hadm : adaptedB m size (fileItemForIndex rows (some j)).url =
                t.isGroupPixAdaptedForSize size := by
              simp [adaptedB, hfm]
            by_cases had : t.isGroupPixAdaptedForSize size = true
            · have hm₀ : adaptedB m₀ size (fileItemForIndex rows (some j)).url = true := by
                rw [← hinv _ h3', hadm, had]
              have hspec : submittedRowSpec rows provider size vr m₀ j = false := by
                simp [submittedRowSpec, hm₀]
              rw [if_pos had, hspec]
              simpa using ih m list hinv
            · have hm₀ : adaptedB m₀ size (fileItemForIndex rows (some j)).url = false := by
                rw [← hinv _ h3', hadm]
                simpa using had
              have hspec : submittedRowSpec rows provider size vr m₀ j = true := by
                simp [submittedRowSpec, hv, h2, h3', hm₀]
              rw [if_neg had, hspec, ih m (list ++ [fileItemForIndex rows (some j)]) hinv]
              simp
          | none =>
            dsimp only
            have hadm : adaptedB m size (fileItemForIndex rows (some j)).url = false := by
              simp [adaptedB, hfm]
            have hm₀ : adaptedB m₀ size (fileItemForIndex rows (some j)).url = false := by
              rw [← hinv _ h3', hadm]
            have hspec : submittedRowSpec rows provider size vr m₀ j = true := by
              simp [submittedRowSpec, hv, h2, h3', hm₀]
            have hinv' : ∀ u, modifiedB provider u = false →
                adaptedB (hashInsert m (fileItemForIndex rows (some j)).url
                  (Thumbnail.init (some j) (fileItemForIndex rows (some j)).mtime)) size u =
                adaptedB m₀ size u := by
              intro u hu
              rw [adaptedB_hashInsert]
              by_cases hue : u = (fileItemForIndex rows (some j)).url
              · rw [if_pos hue, init_not_adapted, hue, hm₀]
              · rw [if_neg hue]
                exact hinv u hu
            rw [hspec, ih _ _ hinv']
            simp

/-- If a modified, visible, non-archive row resolves URL `u`, and no
other processed row resolves `u`, the loop leaves the entry the
modified-document update stored: the provider's thumbnail. -/
theorem gtfviLoop_modified_value (rows : List ModelRow)
    (p : AbstractDocumentInfoProvider) (size now : Nat) (vr : QRect) (u : Nat) :
    ∀ (work : List Nat) (m : ThumbnailForUrl) (list : List KFileItem) (i : Nat),
    i ∈ work → work.Nodup →
    (∀ j ∈ work, j ≠ i → (fileItemForIndex rows (some j)).url ≠ u) →
    (fileItemForIndex rows (some i)).url = u →
    vr.intersects (visualRect rows i) = true →
    (fileItemForIndex rows (some i)).kind ≠ MimeKind.KIND_ARCHIVE →
    p.isModified u = true →
    hashFind (gtfviLoop rows (some p) size now vr work m list).2 u =
      some ⟨some i, now,
        (p.thumbnailForDocument u (ThumbnailGroup.fromPixelSize size)).1,
        QPixmap.nullPix,
        (if (p.thumbnailForDocument u (ThumbnailGroup.fromPixelSize size)).2.isValid = true
         then (p.thumbnailForDocument u (ThumbnailGroup.fromPixelSize size)).2
         else ⟨(ThumbnailGroup.pixelSize ThumbnailGroup.Large : Int),
               (ThumbnailGroup.pixelSize ThumbnailGroup.Large : Int)⟩),
        (p.thumbnailForDocument u (ThumbnailGroup.fromPixelSize size)).2,
        true, false⟩ := by
  intro work
  induction work with
  | nil => intro m list i hi _ _ _ _ _ _; exact absurd hi (List.not_mem_nil i)
  | cons j js ih =>
    intro m list i hi hnd hdist hurl hvis hkind hmod
    by_cases hji : j = i
    · subst hji
      simp only [gtfviLoop]
      rw [if_neg (by simp [hvis]), if_neg hkind,
        if_pos (show modifiedB (some p) (fileItemForIndex rows (some j)).url = true by
          simp [modifiedB, hurl, hmod])]
      have hjs_untouched : ∀ j' ∈ js, (fileItemForIndex rows (some j')).url ≠ u := by
        intro j' hj'
        have hne : j' ≠ j := by
          intro he
          subst he
          exact (List.nodup_cons.mp hnd).1 hj'
        exact hdist j' (List.mem_cons_of_mem _ hj') hne
      rw [gtfviLoop_find_untouched rows (some p) size now vr u js _ list hjs_untouched]
      have hself := updateModifiedMap_find_self rows p size now m (some j)
      rw [hurl] at hself
      exact hself
    · have hi' : i ∈ js := by
        rcases List.mem_cons.mp hi with he | h'
        · exact absurd he.symm hji
        · exact h'
      have hnd' : js.Nodup := (List.nodup_cons.mp hnd).2
      have hdist' : ∀ j' ∈ js, j' ≠ i → (fileItemForIndex rows (some j')).url ≠ u :=
        fun j' hj' => hdist j' (List.mem_cons_of_mem _ hj')
      simp only [gtfviLoop]
      by_cases h1 : (!vr.intersects (visualRect rows j)) = true
      · rw [if_pos h1]
        exact ih m list i hi' hnd' hdist' hurl hvis hkind hmod
      · rw [if_neg h1]
        by_cases h2 : (fileItemForIndex rows (some j)).kind = MimeKind.KIND_ARCHIVE
        · rw [if_pos h2]
          exact ih m list i hi' hnd' hdist' hurl hvis hkind hmod
        · rw [if_neg h2]
          by_cases h3 : modifiedB (some p) (fileItemForIndex rows (some j)).url = true
          · rw [if_pos h3]
            exact ih _ list i hi' hnd' hdist' hurl hvis hkind hmod
          · rw [if_neg h3]
            cases hfm : hashFind m (fileItemForIndex rows (some j)).url with
            | some t =>
              dsimp only
              by_cases had : t.isGroupPixAdaptedForSize size = true
              · rw [if_pos had]
                exact ih m list i hi' hnd' hdist' hurl hvis hkind hmod
              · rw [if_neg had]
                exact ih m _ i hi' hnd' hdist' hurl hvis hkind hmod
            | none =>
              dsimp only
              exact ih _ _ i hi' hnd' hdist' hurl hvis hkind hmod

/-- With a visible view and a model attached, the wrapper's final cache
is the loop's cache, and its final load job is the old job extended by
the submitted items (created when absent, untouched when nothing was
submitted). -/
theorem gtfvi_state_eq (g : ViewGeometry) (rows : List ModelRow) (now : Nat)
    (st : ThumbnailViewState) (hv : g.viewIsVisible = true) (hm : g.hasModel = true) :
    (ThumbnailView.generateThumbnailsForVisibleItems g rows now st).mThumbnailForUrl =
      (gtfviRun g rows now st).2 ∧
    (ThumbnailView.generateThumbnailsForVisibleItems g rows now st).mThumbnailLoadJob =
      (if (gtfviRun g rows now st).1.isEmpty then st.mThumbnailLoadJob
       else some (st.mThumbnailLoadJob.getD [] ++ (gtfviRun g rows now st).1)) := by
  simp only [ThumbnailView.generateThumbnailsForVisibleItems, hv, hm]
  by_cases he : (gtfviRun g rows now st).1.isEmpty = true
  · simp [he]
  · cases hj : st.mThumbnailLoadJob with
    | none => simp [he, generateThumbnailsForItems, hj]
    | some pending => simp [he, generateThumbnailsForItems, hj]

/-- Comparison against the empty string is never positive on the left. -/
theorem qstringCompare_nil_le (b : TagLabel) : qstringCompare [] b ≤ 0 := by
  cases b <;> simp [qstringCompare]

/-- Comparison is antisymmetric in sign. -/
theorem qstringCompare_swap (a b : TagLabel) :
    qstringCompare a b = -qstringCompare b a := by
  induction a generalizing b with
  | nil => cases b <;> simp [qstringCompare]
  | cons x as ih =>
    cases b with
    | nil => simp [qstringCompare]
    | cons y bs =>
      by_cases hxy : x < y
      · have hyx : ¬y < x := by omega
        simp [qstringCompare, hxy, hyx]
      · by_cases hyx : y < x
        · simp [qstringCompare, hxy, hyx]
        · simp [qstringCompare, hxy, hyx, ih]

/-- Comparison is transitive on its non-positive (at-most) relation. -/
theorem qstringCompare_trans (a b c : TagLabel)
    (hab : qstringCompare a b ≤ 0) (hbc : qstringCompare b c ≤ 0) :
    qstringCompare a c ≤ 0 := by
  induction a generalizing b c with
  | nil => exact qstringCompare_nil_le c
  | cons x as ih =>
    cases b with
    | nil => simp [qstringCompare] at hab
    | cons y bs =>
      cases c with
      | nil => simp [qstringCompare] at hbc
      | cons z cs =>
        simp only [qstringCompare] at hab hbc ⊢
        have hxy : x ≤ y := by
          by_contra hx
          rw [if_neg (by omega), if_pos (by omega)] at hab
          omega
        have hyz : y ≤ z := by
          by_contra hy
          rw [if_neg (by omega), if_pos (by omega)] at hbc
          omega
        by_cases hxz : x < z
        · rw [if_pos hxz]; omega
        · have hx : x = y := by omega
          have hy : y = z := by omega
          subst hx; subst hy
          rw [if_neg (lt_irrefl x), if_neg (lt_irrefl x)] at hab hbc ⊢
          exact ih bs cs hab hbc

/-- Membership after inserting a tag row: the new row or an old one. -/
theorem mem_slotTagAddedInsert (tag : SemanticInfoTag) (label : TagLabel)
    (l : List TagRow) (x : TagRow) (hx : x ∈ slotTagAddedInsert tag label l) :
    x = ⟨tag, label⟩ ∨ x ∈ l := by
  induction l with
  | nil => simpa [slotTagAddedInsert] using hx
  | cons r rs ih =>
    simp only [slotTagAddedInsert] at hx
    split_ifs at hx with h
    · rcases List.mem_cons.mp hx with h1 | h1
      · exact Or.inl h1
      · exact Or.inr h1
    · rcases List.mem_cons.mp hx with h1 | h1
      · exact Or.inr (List.mem_cons.mpr (Or.inl h1))
      · rcases ih h1 with h2 | h2
        · exact Or.inl h2
        · exact Or.inr (List.mem_cons.mpr (Or.inr h2))

/-- Inserting before the first greater label preserves sortedness. -/
theorem slotTagAddedInsert_sorted (tag : SemanticInfoTag) (label : TagLabel)
    (l : List TagRow) (h : TagsSorted l) :
    TagsSorted (slotTagAddedInsert tag label l) := by
  induction l with
  | nil => simp [slotTagAddedInsert, TagsSorted]
  | cons r rs ih =>
    rw [TagsSorted, List.pairwise_cons] at h
    obtain ⟨hr, hrs⟩ := h
    simp only [slotTagAddedInsert]
    split_ifs with hgt
    · rw [TagsSorted, List.pairwise_cons]
      constructor
      · intro x hx
        rcases List.mem_cons.mp hx with h1 | hx'
        · have hs := qstringCompare_swap label r.label
          show qstringCompare label x.label ≤ 0
          rw [h1]
          omega
        · have h1 : qstringCompare r.label x.label ≤ 0 := hr x hx'
          have hs := qstringCompare_swap label r.label
          have h3 : qstringCompare label r.label ≤ 0 := by omega
          show qstringCompare label x.label ≤ 0
          exact qstringCompare_trans _ _ _ h3 h1
      · exact List.pairwise_cons.mpr ⟨hr, hrs⟩
    · rw [TagsSorted, List.pairwise_cons]
      constructor
      · intro x hx
        rcases mem_slotTagAddedInsert _ _ _ _ hx with h1 | hx'
        · subst h1
          show qstringCompare r.label label ≤ 0
          omega
        · exact hr x hx'
      · exact ih hrs

/-- The sort used by `refresh` produces a sorted row list. -/
theorem sortTagRows_sorted (l : List TagRow) : TagsSorted (sortTagRows l) := by
  induction l with
  | nil => simp [sortTagRows, TagsSorted]
  | cons r rs ih =>
    simp only [sortTagRows, List.foldr_cons]
    exact slotTagAddedInsert_sorted r.tag r.label _ ih

/-- Folding `slotTagAdded` over any event list preserves sortedness. -/
theorem foldl_slotTagAdded_sorted (events : List (SemanticInfoTag × TagLabel)) :
    ∀ l, TagsSorted l →
      TagsSorted (events.foldl (fun rows e => TagModel.slotTagAdded e.1 e.2 rows) l) := by
  induction events with
  | nil => intro l h; simpa using h
  | cons e es ih =>
    intro l h
    simp only [List.foldl_cons]
    exact ih _ (slotTagAddedInsert_sorted e.1 e.2 l h)

/-! ### Claim theorems -/

/-- Claim C6: `roughAdjustThumbnail` marks the adjusted pixmap as final
(not rough) exactly when the full image size equals the group pixmap size
and that common size is at most the current thumbnail size; in that case
the group pixmap is used unscaled, otherwise a fast aspect-ratio
preserving scale to the thumbnail size is produced and the thumbnail
stays rough. -/
theorem roughAdjust_final_iff (size : Nat) (t : Thumbnail) :
    ((roughAdjustThumbnail size t).mRough = false ↔
      (max t.mFullSize.w t.mFullSize.h = max (t.mGroupPix.w : Int) (t.mGroupPix.h : Int) ∧
       max (t.mGroupPix.w : Int) (t.mGroupPix.h : Int) ≤ (size : Int))) ∧
    ((roughAdjustThumbnail size t).mRough = false →
      (roughAdjustThumbnail size t).mAdjustedPix = t.mGroupPix) ∧
    ((roughAdjustThumbnail size t).mRough = true →
      (roughAdjustThumbnail size t).mAdjustedPix =
        t.mGroupPix.scaled size size ScaleMode.fast) := by
  simp only [roughAdjustThumbnail]
  split_ifs with h
  · simp_all
  · simp_all

/-- Claim C9: Operations on unknown items are no-ops or return empty
results: `setThumbnail` and `setBrokenThumbnail` leave the state
unchanged when the item's URL has no cache entry, and `thumbnailForIndex`
on an index with a null file item returns the null pixmap and the invalid
size without changing the state. -/
theorem unknownItem_operations_are_noops (rows : List ModelRow) (st : ThumbnailViewState)
    (item : KFileItem) (pixmap : QPixmap) (size : QSize) (index : Option Nat)
    (h1 : hashFind st.mThumbnailForUrl item.url = none)
    (h2 : (fileItemForIndex rows index).isNull = true) :
    ThumbnailView.setThumbnail st item pixmap size = st ∧
    ThumbnailView.setBrokenThumbnail st item = st ∧
    ThumbnailView.thumbnailForIndex rows st index = (QPixmap.nullPix, QSize.invalid, st) := by
  refine ⟨?_, ?_, ?_⟩
  · have hm : setThumbnailMap st.mThumbnailForUrl item pixmap size = st.mThumbnailForUrl := by
      simp [setThumbnailMap, h1]
    show { st with mThumbnailForUrl := setThumbnailMap st.mThumbnailForUrl item pixmap size } = st
    rw [hm]
  · simp [ThumbnailView.setBrokenThumbnail, h1]
  · simp [ThumbnailView.thumbnailForIndex, h2]

/-- Witness for C9 at a concrete state whose cache lacks the item's URL. -/
theorem unknownItem_operations_are_noops_witness :
    hashFind exState9.mThumbnailForUrl exItem9.url = none ∧
    (fileItemForIndex [] none).isNull = true ∧
    ThumbnailView.setThumbnail exState9 exItem9 QPixmap.nullPix QSize.invalid = exState9 := by
  refine ⟨rfl, rfl, ?_⟩
  exact (unknownItem_operations_are_noops [] exState9 exItem9 QPixmap.nullPix
    QSize.invalid none rfl rfl).1

/-- Claim C2 (amended): While a thumbnail load job exists,
`smoothNextThumbnail` dequeues no URL and leaves the cache (hence every
queued thumbnail) unchanged; it re-arms the smoothing timer when the
queue is non-empty, and with an empty queue it returns with all state
unchanged. -/
theorem smoothNext_loadJob_priority (st : ThumbnailViewState)
    (hjob : st.mThumbnailLoadJob.isSome = true) :
    (ThumbnailView.smoothNextThumbnail st).mThumbnailForUrl = st.mThumbnailForUrl ∧
    (ThumbnailView.smoothNextThumbnail st).mSmoothThumbnailQueue = st.mSmoothThumbnailQueue ∧
    (st.mSmoothThumbnailQueue ≠ [] →
      (ThumbnailView.smoothNextThumbnail st).mSmoothTimerActive = true) ∧
    (st.mSmoothThumbnailQueue = [] → ThumbnailView.smoothNextThumbnail st = st) := by
  rcases hq : st.mSmoothThumbnailQueue with _ | ⟨url, rest⟩ <;>
    simp [ThumbnailView.smoothNextThumbnail, hq, hjob]

/-- Witness for C2 (amended) at a concrete state with a pending load job
and a queued URL. -/
theorem smoothNext_loadJob_priority_witness :
    exJobState.mThumbnailLoadJob.isSome = true ∧
    (ThumbnailView.smoothNextThumbnail exJobState).mSmoothThumbnailQueue =
      exJobState.mSmoothThumbnailQueue ∧
    (ThumbnailView.smoothNextThumbnail exJobState).mSmoothTimerActive = true := by
  refine ⟨rfl, (smoothNext_loadJob_priority exJobState rfl).2.1, ?_⟩
  exact (smoothNext_loadJob_priority exJobState rfl).2.2.1 (by simp [exJobState])

/-- Claim C2 counterexample: With an empty smoothing queue and a pending
load job, `smoothNextThumbnail` returns without arming the smoothing
timer, refuting that it re-arms the timer whenever a load job exists. -/
theorem smoothNext_emptyQueue_does_not_rearm :
    exSmoothState.mThumbnailLoadJob.isSome = true ∧
    exSmoothState.mSmoothTimerActive = false ∧
    (ThumbnailView.smoothNextThumbnail exSmoothState).mSmoothTimerActive = false :=
  ⟨rfl, rfl, rfl⟩

/-- Claim C4: `updateThumbnailBusyState` maintains `mBusyIndexSet` as the
set of indexes last reported busy (inserted when reported busy, erased
when reported not busy), and preserves the invariant that the busy
animation runs exactly when the set is non-empty. -/
theorem busyState_tracking (st : ThumbnailViewState) (index : Nat) (busy : Bool)
    (hinv : st.mBusyAnimationRunning = true ↔ st.mBusyIndexSet.Nonempty) :
    (ThumbnailView.updateThumbnailBusyState st index busy).mBusyIndexSet =
      (if busy then insert index st.mBusyIndexSet else st.mBusyIndexSet.erase index) ∧
    ((ThumbnailView.updateThumbnailBusyState st index busy).mBusyAnimationRunning = true ↔
      (ThumbnailView.updateThumbnailBusyState st index busy).mBusyIndexSet.Nonempty) := by
  cases busy with
  | true =>
    by_cases hmem : index ∈ st.mBusyIndexSet
    · constructor
      · simp [ThumbnailView.updateThumbnailBusyState, hmem,
          Finset.insert_eq_self.mpr hmem]
      · simp only [ThumbnailView.updateThumbnailBusyState, hmem]
        simpa using hinv
    · by_cases hr : st.mBusyAnimationRunning <;>
        simp [ThumbnailView.updateThumbnailBusyState, hmem, hr,
          Finset.insert_nonempty]
  | false =>
    by_cases hmem : index ∈ st.mBusyIndexSet
    · by_cases he : st.mBusyIndexSet.erase index = ∅
      · simp [ThumbnailView.updateThumbnailBusyState, hmem, he]
      · constructor
        · simp [ThumbnailView.updateThumbnailBusyState, hmem, he]
        · simp only [ThumbnailView.updateThumbnailBusyState, hmem, he]
          refine ⟨fun _ => Finset.nonempty_iff_ne_empty.mpr ?_, fun _ => ?_⟩
          · simpa using he
          · simpa using hinv.mpr ⟨index, hmem⟩
    · constructor
      · simp [ThumbnailView.updateThumbnailBusyState, hmem,
          Finset.erase_eq_of_not_mem hmem]
      · simp only [ThumbnailView.updateThumbnailBusyState, hmem]
        simpa using hinv

/-- Witness for C4 at a concrete state satisfying the invariant. -/
theorem busyState_tracking_witness :
    (exState4.mBusyAnimationRunning = true ↔ exState4.mBusyIndexSet.Nonempty) ∧
    (ThumbnailView.updateThumbnailBusyState exState4 3 true).mBusyIndexSet =
      (if true then insert 3 exState4.mBusyIndexSet else exState4.mBusyIndexSet.erase 3) ∧
    ((ThumbnailView.updateThumbnailBusyState exState4 3 true).mBusyAnimationRunning = true ↔
      (ThumbnailView.updateThumbnailBusyState exState4 3 true).mBusyIndexSet.Nonempty) := by
  have hinv : exState4.mBusyAnimationRunning = true ↔ exState4.mBusyIndexSet.Nonempty := by
    simp [exState4]
  exact ⟨hinv, (busyState_tracking exState4 3 true hinv).1,
    (busyState_tracking exState4 3 true hinv).2⟩

/-- Claim C8: `ImageMetaInfoModel`'s `index`/`parent`/`rowCount` form a
consistent two-level tree: group indexes are valid with invalid parent,
entry indexes have their group index as parent, out-of-range rows or
columns yield invalid indexes, and entry indexes have row count 0. -/
theorem metaInfoModel_tree_consistent (model : ImageMetaInfoModel) (g : Nat)
    (hg : g < model.mMetaInfoGroupVector.length) :
    model.index g 0 .invalid = .valid g 0 NoGroup ∧
    model.parent (model.index g 0 .invalid) = .invalid ∧
    (∀ r c, r < (model.groupAt g).size → c ≤ 1 →
      model.parent (model.index r c (model.index g 0 .invalid)) = model.index g 0 .invalid) ∧
    (∀ r c, model.mMetaInfoGroupVector.length ≤ r → model.index r c .invalid = .invalid) ∧
    (∀ r c, 0 < c → model.index r c .invalid = .invalid) ∧
    (∀ r c, (model.groupAt g).size ≤ r →
      model.index r c (model.index g 0 .invalid) = .invalid) ∧
    (∀ r c, 1 < c → model.index r c (model.index g 0 .invalid) = .invalid) ∧
    (∀ r c, r < (model.groupAt g).size → c ≤ 1 →
      model.rowCount (model.index r c (model.index g 0 .invalid)) = 0) := by
  have hgn : ¬model.mMetaInfoGroupVector.length ≤ g := not_le.mpr hg
  have hidx : model.index g 0 .invalid = .valid g 0 NoGroup := by
    simp [ImageMetaInfoModel.index, hgn]
  have hgcast : ¬((g : Int) = NoGroup) := by
    simp only [NoGroup]
    omega
  refine ⟨hidx, ?_, ?_, ?_, ?_, ?_, ?_, ?_⟩
  · rw [hidx]; simp [ImageMetaInfoModel.parent, NoGroup]
  · intro r c hr hc
    rw [hidx]
    have : model.index r c (MIdx.valid g 0 NoGroup) = .valid r c (g : Int) := by
      simp [ImageMetaInfoModel.index, not_lt.mpr hc, not_le.mpr hr]
    rw [this]
    simp [ImageMetaInfoModel.parent, hgcast]
  · intro r c hr
    by_cases hc : 0 < c <;> simp [ImageMetaInfoModel.index, hc, hr]
  · intro r c hc
    simp [ImageMetaInfoModel.index, hc]
  · intro r c hr
    rw [hidx]
    by_cases hc : 1 < c <;> simp [ImageMetaInfoModel.index, hc, hr]
  · intro r c hc
    rw [hidx]
    simp [ImageMetaInfoModel.index, hc]
  · intro r c hr hc
    rw [hidx]
    have : model.index r c (MIdx.valid g 0 NoGroup) = .valid r c (g : Int) := by
      simp [ImageMetaInfoModel.index, not_lt.mpr hc, not_le.mpr hr]
    rw [this]
    simp [ImageMetaInfoModel.rowCount, hgcast]

/-- Claim C7: `TagModel` keeps its rows sorted in ascending label order:
`refresh` rebuilds the model from the backend's tags and sorts it, and
for every sequence of `tagAdded` events starting from a refreshed model
the row labels remain sorted. -/
theorem tagModel_rows_sorted (tags events : List (SemanticInfoTag × TagLabel)) :
    TagsSorted (TagModel.refresh tags) ∧
    TagsSorted (events.foldl (fun rows e => TagModel.slotTagAdded e.1 e.2 rows)
      (TagModel.refresh tags)) :=
  ⟨sortTagRows_sorted _, foldl_slotTagAdded_sorted events _ (sortTagRows_sorted _)⟩

/-- Claim C1: For an item whose loaded group pixmap is available (a cache
entry with a non-null group pixmap, no adjusted pixmap yet),
`thumbnailForIndex` produces the displayed pixmap with the fast
`roughAdjustThumbnail` step (a fast scale whenever the result is rough);
whenever the result is rough the URL is enqueued for smoothing (if not
already queued, arming the timer), and a later `smoothNextThumbnail`
with no pending load job and that URL at the queue head replaces the
adjusted pixmap with a smooth-scaled version of the group pixmap and
clears the rough flag — load, rough-scale, smooth-scale, in that
order. -/
theorem thumbnail_pipeline_stages (rows : List ModelRow) (st : ThumbnailViewState)
    (i : Nat) (r : ModelRow) (t : Thumbnail)
    (hget : rows.get? i = some r)
    (hnn : r.item.isNull = false)
    (hka : r.item.kind ≠ MimeKind.KIND_ARCHIVE)
    (hkd : r.item.kind ≠ MimeKind.KIND_DIR)
    (hfind : hashFind st.mThumbnailForUrl r.item.url = some t)
    (hgp : t.mGroupPix.isNull = false)
    (hadj : t.mAdjustedPix.isNull = true) :
    (ThumbnailView.thumbnailForIndex rows st (some i)).1 =
      (roughAdjustThumbnail st.mThumbnailSize t).mAdjustedPix ∧
    ((roughAdjustThumbnail st.mThumbnailSize t).mRough = true →
      (roughAdjustThumbnail st.mThumbnailSize t).mAdjustedPix =
        t.mGroupPix.scaled st.mThumbnailSize st.mThumbnailSize ScaleMode.fast) ∧
    ((roughAdjustThumbnail st.mThumbnailSize t).mRough = true →
      r.item.url ∈ (ThumbnailView.thumbnailForIndex rows st (some i)).2.2.mSmoothThumbnailQueue) ∧
    ((roughAdjustThumbnail st.mThumbnailSize t).mRough = true →
      r.item.url ∉ st.mSmoothThumbnailQueue →
      (ThumbnailView.thumbnailForIndex rows st (some i)).2.2.mSmoothThumbnailQueue =
        st.mSmoothThumbnailQueue ++ [r.item.url] ∧
      (ThumbnailView.thumbnailForIndex rows st (some i)).2.2.mSmoothTimerActive = true) ∧
    (∀ st₂ t₂ rest, st₂.mThumbnailLoadJob = none →
      st₂.mSmoothThumbnailQueue = r.item.url :: rest →
      hashFind st₂.mThumbnailForUrl r.item.url = some t₂ →
      hashFind (ThumbnailView.smoothNextThumbnail st₂).mThumbnailForUrl r.item.url =
        some { t₂ with
          mAdjustedPix :=
            t₂.mGroupPix.scaled st₂.mThumbnailSize st₂.mThumbnailSize ScaleMode.smooth,
          mRough := false } ∧
      (ThumbnailView.smoothNextThumbnail st₂).mSmoothThumbnailQueue = rest) := by
  have hitem : fileItemForIndex rows (some i) = r.item := by
    show (match rows.get? i with
      | some rr => rr.item
      | none => KFileItem.nullItem) = r.item
    rw [hget]
  have hk : ¬(r.item.kind = MimeKind.KIND_ARCHIVE ∨ r.item.kind = MimeKind.KIND_DIR) := by
    simp [hka, hkd]
  have hrough_fast : (roughAdjustThumbnail st.mThumbnailSize t).mRough = true →
      (roughAdjustThumbnail st.mThumbnailSize t).mAdjustedPix =
        t.mGroupPix.scaled st.mThumbnailSize st.mThumbnailSize ScaleMode.fast := by
    simp only [roughAdjustThumbnail]
    split_ifs with h <;> simp
  have hsmooth : ∀ st₂ t₂ rest, st₂.mThumbnailLoadJob = none →
      st₂.mSmoothThumbnailQueue = r.item.url :: rest →
      hashFind st₂.mThumbnailForUrl r.item.url = some t₂ →
      hashFind (ThumbnailView.smoothNextThumbnail st₂).mThumbnailForUrl r.item.url =
        some { t₂ with
          mAdjustedPix :=
            t₂.mGroupPix.scaled st₂.mThumbnailSize st₂.mThumbnailSize ScaleMode.smooth,
          mRough := false } ∧
      (ThumbnailView.smoothNextThumbnail st₂).mSmoothThumbnailQueue = rest := by
    intro st₂ t₂ rest hjob hq hf
    simp [ThumbnailView.smoothNextThumbnail, hq, hjob, hf, hashFind_hashInsert]
  have heval : ThumbnailView.thumbnailForIndex rows st (some i) =
      ((roughAdjustThumbnail st.mThumbnailSize t).mAdjustedPix,
       (roughAdjustThumbnail st.mThumbnailSize t).mRealFullSize,
       { st with
         mThumbnailForUrl :=
           hashInsert (hashInsert st.mThumbnailForUrl r.item.url t) r.item.url
             (roughAdjustThumbnail st.mThumbnailSize t),
         mSmoothThumbnailQueue :=
           (if (roughAdjustThumbnail st.mThumbnailSize t).mRough = true ∧
               r.item.url ∉ st.mSmoothThumbnailQueue then
             (st.mSmoothThumbnailQueue ++ [r.item.url], true)
           else (st.mSmoothThumbnailQueue, st.mSmoothTimerActive)).1,
         mSmoothTimerActive :=
           (if (roughAdjustThumbnail st.mThumbnailSize t).mRough = true ∧
               r.item.url ∉ st.mSmoothThumbnailQueue then
             (st.mSmoothThumbnailQueue ++ [r.item.url], true)
           else (st.mSmoothThumbnailQueue, st.mSmoothTimerActive)).2 }) := by
    simp [ThumbnailView.thumbnailForIndex, hitem, hnn, hfind, hgp, hadj, hk]
  refine ⟨?_, hrough_fast, ?_, ?_, hsmooth⟩
  · rw [heval]
  · intro hrough
    rw [heval]
    by_cases hqin : r.item.url ∈ st.mSmoothThumbnailQueue
    · simp [hrough, hqin]
    · simp [hrough, hqin]
  · intro hrough hqin
    rw [heval]
    simp [hrough, hqin]

/-- Witness for C1 at a concrete loaded cache entry and a concrete
smoothing state. -/
theorem thumbnail_pipeline_stages_witness :
    ex1Rows.get? 0 = some ⟨⟨false, 1, 0, .KIND_RASTER_IMAGE, 9⟩, ⟨0, 0, 10, 10⟩⟩ ∧
    hashFind ex1State.mThumbnailForUrl 1 = some ex1Thumb ∧
    (ThumbnailView.thumbnailForIndex ex1Rows ex1State (some 0)).1 =
      (roughAdjustThumbnail ex1State.mThumbnailSize ex1Thumb).mAdjustedPix ∧
    hashFind (ThumbnailView.smoothNextThumbnail ex1SmoothState).mThumbnailForUrl 1 =
      some { ex1Thumb with
        mAdjustedPix := ex1Thumb.mGroupPix.scaled ex1SmoothState.mThumbnailSize
          ex1SmoothState.mThumbnailSize ScaleMode.smooth,
        mRough := false } ∧
    (ThumbnailView.smoothNextThumbnail ex1SmoothState).mSmoothThumbnailQueue = [] := by
  have h := thumbnail_pipeline_stages ex1Rows ex1State 0
    ⟨⟨false, 1, 0, .KIND_RASTER_IMAGE, 9⟩, ⟨0, 0, 10, 10⟩⟩ ex1Thumb rfl rfl
    (by decide) (by decide) rfl rfl rfl
  have hs := h.2.2.2.2 ex1SmoothState ex1Thumb [] rfl rfl rfl
  exact ⟨rfl, rfl, h.1, hs.1, hs.2⟩

/-- Claim C3: With a visible view and a model, the generation run submits
to the load job exactly the model rows that intersect the extended
visible rectangle, are not archives, are not modified documents and
whose cached entry does not already hold a group pixmap adapted to the
current thumbnail size; every submitted item has an entry in the
resulting `mThumbnailForUrl`, and the load job receives exactly the
submitted list (created when no job existed, appended otherwise, left
untouched when nothing was submitted). -/
theorem gtfvi_submits_exactly (g : ViewGeometry) (rows : List ModelRow) (now : Nat)
    (st : ThumbnailViewState) (hv : g.viewIsVisible = true) (hm : g.hasModel = true) :
    (gtfviRun g rows now st).1 =
      ((List.range rows.length).filter
        (submittedRowSpec rows st.mDocumentInfoProvider st.mThumbnailSize
          (extendedVisibleRect g st.mThumbnailSize) st.mThumbnailForUrl)).map
        (fun i => fileItemForIndex rows (some i)) ∧
    (∀ it ∈ (gtfviRun g rows now st).1,
      (hashFind (ThumbnailView.generateThumbnailsForVisibleItems g rows now
        st).mThumbnailForUrl it.url).isSome = true) ∧
    (ThumbnailView.generateThumbnailsForVisibleItems g rows now st).mThumbnailLoadJob =
      (if (gtfviRun g rows now st).1.isEmpty then st.mThumbnailLoadJob
       else some (st.mThumbnailLoadJob.getD [] ++ (gtfviRun g rows now st).1)) := by
  obtain ⟨hmap, hjob⟩ := gtfvi_state_eq g rows now st hv hm
  refine ⟨?_, ?_, hjob⟩
  · simpa [gtfviRun] using gtfviLoop_list_characterization rows st.mDocumentInfoProvider
      st.mThumbnailSize now (extendedVisibleRect g st.mThumbnailSize) st.mThumbnailForUrl
      (List.range rows.length) st.mThumbnailForUrl [] (fun u _ => rfl)
  · intro it hit
    rw [hmap]
    refine gtfviLoop_submitted_in_map rows st.mDocumentInfoProvider st.mThumbnailSize now
      (extendedVisibleRect g st.mThumbnailSize) (List.range rows.length)
      st.mThumbnailForUrl [] ?_ it hit
    intro it' hit'
    simp at hit'

/-- Witness for C3 at a concrete two-row model (one raster image, one
archive). -/
theorem gtfvi_submits_exactly_witness :
    ex3Geometry.viewIsVisible = true ∧ ex3Geometry.hasModel = true ∧
    (gtfviRun ex3Geometry ex3Rows 0 ex3State).1 =
      ((List.range ex3Rows.length).filter
        (submittedRowSpec ex3Rows ex3State.mDocumentInfoProvider ex3State.mThumbnailSize
          (extendedVisibleRect ex3Geometry ex3State.mThumbnailSize)
          ex3State.mThumbnailForUrl)).map
        (fun i => fileItemForIndex ex3Rows (some i)) :=
  ⟨rfl, rfl, (gtfvi_submits_exactly ex3Geometry ex3Rows 0 ex3State rfl rfl).1⟩

/-- Claim C5: For a visible, non-archive model row whose document the
provider reports modified (and whose URL no other row resolves),
`generateThumbnailsForVisibleItems` submits no modified item to the load
job and replaces the row's cache entry with the thumbnail obtained from
the provider via `thumbnailForDocument`; `updateThumbnail` on that row
likewise leaves the load job untouched and replaces the entry. -/
theorem modified_documents_updated_immediately (g : ViewGeometry) (rows : List ModelRow)
    (now : Nat) (st : ThumbnailViewState) (i : Nat) (r : ModelRow)
    (p : AbstractDocumentInfoProvider)
    (hv : g.viewIsVisible = true) (hm : g.hasModel = true)
    (hp : st.mDocumentInfoProvider = some p)
    (hget : rows.get? i = some r)
    (hvis : (extendedVisibleRect g st.mThumbnailSize).intersects (visualRect rows i) = true)
    (hkind : r.item.kind ≠ MimeKind.KIND_ARCHIVE)
    (hmod : p.isModified r.item.url = true)
    (hdist : ∀ j, j < rows.length → j ≠ i →
      (fileItemForIndex rows (some j)).url ≠ r.item.url) :
    (∀ it ∈ (gtfviRun g rows now st).1, p.isModified it.url = false) ∧
    hashFind (ThumbnailView.generateThumbnailsForVisibleItems g rows now
      st).mThumbnailForUrl r.item.url =
      some ⟨some i, now,
        (p.thumbnailForDocument r.item.url
          (ThumbnailGroup.fromPixelSize st.mThumbnailSize)).1,
        QPixmap.nullPix,
        (if (p.thumbnailForDocument r.item.url
              (ThumbnailGroup.fromPixelSize st.mThumbnailSize)).2.isValid = true
         then (p.thumbnailForDocument r.item.url
              (ThumbnailGroup.fromPixelSize st.mThumbnailSize)).2
         else ⟨(ThumbnailGroup.pixelSize ThumbnailGroup.Large : Int),
               (ThumbnailGroup.pixelSize ThumbnailGroup.Large : Int)⟩),
        (p.thumbnailForDocument r.item.url
          (ThumbnailGroup.fromPixelSize st.mThumbnailSize)).2,
        true, false⟩ ∧
    (ThumbnailView.updateThumbnail rows now st (some i)).mThumbnailLoadJob =
      st.mThumbnailLoadJob ∧
    hashFind (ThumbnailView.updateThumbnail rows now st (some i)).mThumbnailForUrl
      r.item.url =
      some ⟨some i, now,
        (p.thumbnailForDocument r.item.url
          (ThumbnailGroup.fromPixelSize st.mThumbnailSize)).1,
        QPixmap.nullPix,
        (if (p.thumbnailForDocument r.item.url
              (ThumbnailGroup.fromPixelSize st.mThumbnailSize)).2.isValid = true
         then (p.thumbnailForDocument r.item.url
              (ThumbnailGroup.fromPixelSize st.mThumbnailSize)).2
         else ⟨(ThumbnailGroup.pixelSize ThumbnailGroup.Large : Int),
               (ThumbnailGroup.pixelSize ThumbnailGroup.Large : Int)⟩),
        (p.thumbnailForDocument r.item.url
          (ThumbnailGroup.fromPixelSize st.mThumbnailSize)).2,
        true, false⟩ := by
  have hitem : fileItemForIndex rows (some i) = r.item := by
    show (match rows.get? i with
      | some rr => rr.item
      | none => KFileItem.nullItem) = r.item
    rw [hget]
  have hilen : i < rows.length := by
    rcases List.get?_eq_some.mp hget with ⟨hlt, _⟩
    exact hlt
  have hmodb : modifiedB st.mDocumentInfoProvider (fileItemForIndex rows (some i)).url
      = true := by
    rw [hp, hitem]
    simpa [modifiedB] using hmod
  refine ⟨?_, ?_, ?_, ?_⟩
  · intro it hit
    have h := gtfviLoop_no_modified rows st.mDocumentInfoProvider st.mThumbnailSize now
      (extendedVisibleRect g st.mThumbnailSize) (List.range rows.length)
      st.mThumbnailForUrl [] (by intro it' hit'; simp at hit') it hit
    rw [hp] at h
    simpa [modifiedB] using h
  · rw [(gtfvi_state_eq g rows now st hv hm).1]
    have h := gtfviLoop_modified_value rows p st.mThumbnailSize now
      (extendedVisibleRect g st.mThumbnailSize) r.item.url
      (List.range rows.length) st.mThumbnailForUrl [] i
      (List.mem_range.mpr hilen) (List.nodup_range _)
      (fun j hj hne => hdist j (List.mem_range.mp hj) hne)
      (by rw [hitem]) hvis (by rw [hitem]; exact hkind) hmod
    rw [gtfviRun, hp]
    exact h
  · simp only [ThumbnailView.updateThumbnail, hmodb, if_pos,
      updateThumbnailForModifiedDocument]
  · simp only [ThumbnailView.updateThumbnail, hmodb, if_pos,
      updateThumbnailForModifiedDocument]
    rw [hp]
    have hself := updateModifiedMap_find_self rows p st.mThumbnailSize now
      st.mThumbnailForUrl (some i)
    rw [hitem] at hself
    exact hself

/-- Witness for C5 at a concrete one-row model whose only document is
modified. -/
theorem modified_documents_updated_immediately_witness :
    ex5State.mDocumentInfoProvider = some ex5Provider ∧
    ex5Provider.isModified 5 = true ∧
    (ThumbnailView.updateThumbnail ex5Rows 7 ex5State (some 0)).mThumbnailLoadJob =
      ex5State.mThumbnailLoadJob ∧
    hashFind (ThumbnailView.updateThumbnail ex5Rows 7 ex5State
      (some 0)).mThumbnailForUrl 5 =
      some ⟨some 0, 7,
        (ex5Provider.thumbnailForDocument 5
          (ThumbnailGroup.fromPixelSize ex5State.mThumbnailSize)).1,
        QPixmap.nullPix,
        (if (ex5Provider.thumbnailForDocument 5
              (ThumbnailGroup.fromPixelSize ex5State.mThumbnailSize)).2.isValid = true
         then (ex5Provider.thumbnailForDocument 5
              (ThumbnailGroup.fromPixelSize ex5State.mThumbnailSize)).2
         else ⟨(ThumbnailGroup.pixelSize ThumbnailGroup.Large : Int),
               (ThumbnailGroup.pixelSize ThumbnailGroup.Large : Int)⟩),
        (ex5Provider.thumbnailForDocument 5
          (ThumbnailGroup.fromPixelSize ex5State.mThumbnailSize)).2,
        true, false⟩ := by
  have h := modified_documents_updated_immediately ex3Geometry ex5Rows 7 ex5State 0
    ⟨⟨false, 5, 0, .KIND_RASTER_IMAGE, 9⟩, ⟨0, 0, 10, 10⟩⟩ ex5Provider rfl rfl rfl rfl
    (by decide) (by decide) rfl
    (by intro j hj hne; have hl : ex5Rows.length = 1 := rfl; omega)
  exact ⟨rfl, rfl, h.2.2.1, h.2.2.2⟩

/-- Witness for C8 at a concrete two-group model. -/
theorem metaInfoModel_tree_consistent_witness :
    1 < exMetaModel.mMetaInfoGroupVector.length ∧
    exMetaModel.parent (exMetaModel.index 0 1 (exMetaModel.index 1 0 .invalid)) =
      exMetaModel.index 1 0 .invalid := by
  refine ⟨by decide, ?_⟩
  exact (metaInfoModel_tree_consistent exMetaModel 1 (by decide)).2.2.1 0 1
    (by decide) (by decide)

end Gwenview
